import Mathlib

/-!
Shallow embedding of `scripts/run-docjays-phases.py`, a sequential phase
orchestrator.  Pure data is translated directly from the source; the
effectful parts (subprocess creation, per-phase log-file creation, progress
persistence) are modelled as an explicit effect trace, and the ambient
environment (per-phase subprocess outcomes, the wall clock) as an `Env`
record.  Timestamps are modelled as integers read from a clock indexed by a
read counter, and `duration_seconds` as the exact difference of the two
timestamps that bracket an execution.
-/

/-- The `PhaseStatus` enum of the script (five members, no ordering). -/
inductive PhaseStatus where
  | pending
  | in_progress
  | completed
  | failed
  | skipped
deriving DecidableEq

/-- The `PhaseResult` dataclass: one record per phase execution attempt.
Optional fields default to `none` exactly as the dataclass defaults them to
`None`. -/
structure PhaseResult where
  phase_number : Int
  phase_name : String
  status : PhaseStatus
  start_time : Option Int := none
  end_time : Option Int := none
  duration_seconds : Option Int := none
  error_message : Option String := none
  command_used : Option String := none
  output_file : Option String := none
deriving DecidableEq

/-- One entry of the static `PHASES` catalog (`name`, `command`,
`duration_estimate`, `description`). -/
structure PhaseInfo where
  name : String
  command : String
  duration_estimate : String
  description : String
deriving DecidableEq

/-- The static `DocJaysOrchestrator.PHASES` table, keyed by phase number. -/
def PHASES : List (Int × PhaseInfo) :=
  [ (1, { name := "Database Foundation", command := "docjays-phase1",
          duration_estimate := "1-2 weeks",
          description := "Enhanced schema with taxonomy, lifecycle tracking, usage metadata" }),
    (2, { name := "Lifecycle Management APIs", command := "docjays-phase2",
          duration_estimate := "1-2 weeks",
          description := "Grounding API with metadata, approval workflow, lifecycle operations" }),
    (3, { name := "Compliance Checking", command := "docjays-phase3",
          duration_estimate := "1-2 weeks",
          description := "Real-time constraint enforcement, LLM-based compliance analysis" }),
    (4, { name := "Decision Extraction", command := "docjays-phase4",
          duration_estimate := "1-2 weeks",
          description := "Auto-extract decisions from PRs, commits, documents" }),
    (5, { name := "UI Enhancement", command := "docjays-phase5",
          duration_estimate := "1-2 weeks",
          description := "Governance dashboard, grounding modal, compliance UI" }),
    (6, { name := "MCP and CLI Tools", command := "docjays-phase6",
          duration_estimate := "1-2 weeks",
          description := "Enhanced MCP tools, CLI commands, workflow integration" }),
    (7, { name := "Testing and Deployment", command := "docjays-phase7",
          duration_estimate := "1-2 weeks",
          description := "Comprehensive testing, gradual rollout, monitoring" }) ]

/-- Behaviour of one attempted subprocess: either `subprocess.Popen` (or the
surrounding streaming code) raises an exception with a message, or the
spawned process exits with a code. -/
inductive ExecOutcome where
  | launchFailure (msg : String)
  | exited (code : Int)
deriving DecidableEq

/-- The ambient environment of a run: the outcome of attempting each phase's
external command, and the wall clock (`clock n` is the value returned by the
n-th `datetime.now()` read taken by `execute_phase`). -/
structure Env where
  outcome : Int → ExecOutcome
  clock : Nat → Int

/-- Observable side effects of a run, in order: spawning a subprocess,
creating a per-phase log file, and persisting the progress store
(`save_progress`). -/
inductive Effect where
  | spawn (command : String) (phase : Int)
  | createLog (path : String) (phase : Int)
  | save (results : List PhaseResult)
deriving DecidableEq

/-- `True` exactly on persistence effects. -/
def Effect.isSave : Effect → Bool
  | .save _ => true
  | _ => false

/-- Phases for which a subprocess was spawned, in spawn order. -/
def spawnPhases (l : List Effect) : List Int :=
  l.filterMap fun e =>
    match e with
    | .spawn _ ph => some ph
    | _ => none

/-- The successive collections handed to `save_progress`, in save order. -/
def savedStores (l : List Effect) : List (List PhaseResult) :=
  l.filterMap fun e =>
    match e with
    | .save rs => some rs
    | _ => none

/-- The log-file path built from the phase number and the timestamp read
just before execution (`phase{n}_{timestamp}.log` under `scripts/outputs`). -/
def log_path (phase_number : Int) (t : Int) : String :=
  "scripts/outputs/phase" ++ toString phase_number ++ "_" ++ toString t ++ ".log"

/-- `DocJaysOrchestrator.execute_phase`.  Returns `none` for the
`ValueError` raised on a phase number absent from the catalog; otherwise the
produced `PhaseResult`, the spawn/log effects, and the advanced clock
counter.  The dry-run branch returns a `skipped` result recording the
command and touches nothing; the launch-failure branch (the `except` clause)
records `failed` with the exception message and an end timestamp but no
duration and no output file; the normal branch spawns, creates the log,
records both timestamps, the duration, the output file and a status derived
from the exit code. -/
def execute_phase (catalog : List (Int × PhaseInfo)) (dry_run : Bool) (env : Env)
    (ctr : Nat) (phase_number : Int) : Option (PhaseResult × List Effect × Nat) :=
  match List.lookup phase_number catalog with
  | none => none
  | some info =>
    if dry_run then
      some ({ phase_number := phase_number, phase_name := info.name,
              status := .skipped, command_used := some ("/" ++ info.command) },
            [], ctr)
    else
      let t_log := env.clock ctr
      let path := log_path phase_number t_log
      let command := "claude /" ++ info.command
      let t_start := env.clock (ctr + 1)
      match env.outcome phase_number with
      | .launchFailure msg =>
          some ({ phase_number := phase_number, phase_name := info.name,
                  status := .failed, start_time := some t_start,
                  end_time := some (env.clock (ctr + 2)),
                  error_message := some msg, command_used := some command },
                [], ctr + 3)
      | .exited code =>
          let t_end := env.clock (ctr + 2)
          some ({ phase_number := phase_number, phase_name := info.name,
                  status := if code = 0 then .completed else .failed,
                  start_time := some t_start, end_time := some t_end,
                  duration_seconds := some (t_end - t_start),
                  error_message :=
                    if code = 0 then none
                    else some ("Command exited with code " ++ toString code),
                  command_used := some command, output_file := some path },
                [.spawn command phase_number, .createLog path phase_number],
                ctr + 3)

/-- In-memory state threaded through `run_phases`: the orchestrator's
`self.results`, the clock counter, and the accumulated effect trace. -/
structure RunState where
  results : List PhaseResult
  ctr : Nat
  effects : List Effect
deriving DecidableEq

/-- One iteration of the `run_phases` loop body for phase `q`: skip unknown
phases with a warning, skip phases whose existing record is `completed`,
otherwise execute, replace-or-append the result (`remove` then `append`),
persist, and report whether the loop must break (`status == FAILED`). -/
def run_step (catalog : List (Int × PhaseInfo)) (dry_run : Bool) (env : Env)
    (st : RunState) (q : Int) : RunState × Bool :=
  match execute_phase catalog dry_run env st.ctr q with
  | none => (st, false)
  | some (result, effs, ctr') =>
    match st.results.find? (fun r => r.phase_number == q) with
    | some existing =>
      if existing.status = PhaseStatus.completed then (st, false)
      else
        let results' := st.results.erase existing ++ [result]
        ({ results := results', ctr := ctr',
           effects := st.effects ++ effs ++ [Effect.save results'] },
         result.status == PhaseStatus.failed)
    | none =>
      let results' := st.results ++ [result]
      ({ results := results', ctr := ctr',
         effects := st.effects ++ effs ++ [Effect.save results'] },
       result.status == PhaseStatus.failed)

/-- The `run_phases` loop over the resolved plan, honouring stop-on-failure. -/
def run_phases_go (catalog : List (Int × PhaseInfo)) (dry_run : Bool) (env : Env) :
    List Int → RunState → RunState
  | [], st => st
  | q :: rest, st =>
    let s := run_step catalog dry_run env st q
    if s.2 then s.1 else run_phases_go catalog dry_run env rest s.1

/-- A parsed phase selection: `"all"`, a range `"N-M"`, or a bare number. -/
inductive Selection where
  | all
  | range (lo hi : Int)
  | single (n : Int)
deriving DecidableEq

/-- Plan resolution at the top of `run_phases`: `"all"` gives every catalog
key in table order, `"N-M"` gives `list(range(N, M + 1))`, a bare number a
singleton plan. -/
def resolve_plan (catalog : List (Int × PhaseInfo)) : Selection → List Int
  | .all => catalog.map Prod.fst
  | .range lo hi => (List.range (hi + 1 - lo).toNat).map (fun i => lo + i)
  | .single n => [n]

/-- `DocJaysOrchestrator.run_phases` on an initial store loaded from disk. -/
def run_phases (catalog : List (Int × PhaseInfo)) (dry_run : Bool) (env : Env)
    (sel : Selection) (store₀ : List PhaseResult) : RunState :=
  run_phases_go catalog dry_run env (resolve_plan catalog sel) ⟨store₀, 0, []⟩

/-- `max(self.PHASES.keys())` (the catalog keys are positive). -/
def max_key (catalog : List (Int × PhaseInfo)) : Int :=
  (catalog.map Prod.fst).foldl max 0

/-- `DocJaysOrchestrator.resume_from`: runs the plan `f"{K}-{max_key}"`. -/
def resume_from (catalog : List (Int × PhaseInfo)) (dry_run : Bool) (env : Env)
    (K : Int) (store₀ : List PhaseResult) : RunState :=
  run_phases catalog dry_run env (.range K (max_key catalog)) store₀

/-- One serialized record of the progress file, as written by
`save_progress` (status as its string `.value`). -/
structure SerializedResult where
  phase_number : Int
  phase_name : String
  status : String
  start_time : Option Int
  end_time : Option Int
  duration_seconds : Option Int
  error_message : Option String
  command_used : Option String
  output_file : Option String
deriving DecidableEq

/-- The progress file: a last-updated timestamp plus the serialized records. -/
structure ProgressFile where
  last_updated : Int
  results : List SerializedResult
deriving DecidableEq

/-- `PhaseStatus.value`: the persisted string of each enum member. -/
def statusValue : PhaseStatus → String
  | .pending => "pending"
  | .in_progress => "in_progress"
  | .completed => "completed"
  | .failed => "failed"
  | .skipped => "skipped"

/-- `PhaseStatus(s)`: the enum member whose value is `s`, or `none` for the
`ValueError` raised on an unknown string. -/
def statusOfValue (s : String) : Option PhaseStatus :=
  if s = "pending" then some .pending
  else if s = "in_progress" then some .in_progress
  else if s = "completed" then some .completed
  else if s = "failed" then some .failed
  else if s = "skipped" then some .skipped
  else none

/-- The per-record dictionary written by `save_progress`. -/
def serialize (r : PhaseResult) : SerializedResult :=
  { phase_number := r.phase_number, phase_name := r.phase_name,
    status := statusValue r.status, start_time := r.start_time,
    end_time := r.end_time, duration_seconds := r.duration_seconds,
    error_message := r.error_message, command_used := r.command_used,
    output_file := r.output_file }

/-- `DocJaysOrchestrator.save_progress`: the full collection plus a fresh
last-updated timestamp. -/
def save_progress (now : Int) (results : List PhaseResult) : ProgressFile :=
  { last_updated := now, results := results.map serialize }

/-- Reconstruction of one `PhaseResult` inside `load_progress`; `none` for
the `ValueError` raised by `PhaseStatus(...)` on an unknown status string. -/
def parse_result (s : SerializedResult) : Option PhaseResult :=
  match statusOfValue s.status with
  | none => none
  | some st =>
    some { phase_number := s.phase_number, phase_name := s.phase_name,
           status := st, start_time := s.start_time, end_time := s.end_time,
           duration_seconds := s.duration_seconds,
           error_message := s.error_message, command_used := s.command_used,
           output_file := s.output_file }

/-- The list comprehension of `load_progress`, propagating a parse failure. -/
def parse_results : List SerializedResult → Option (List PhaseResult)
  | [] => some []
  | s :: rest =>
    match parse_result s, parse_results rest with
    | some r, some rs => some (r :: rs)
    | _, _ => none

/-- `DocJaysOrchestrator.load_progress`: an absent file leaves the results
empty; a present file is parsed record by record. -/
def load_progress : Option ProgressFile → Option (List PhaseResult)
  | none => some []
  | some f => parse_results f.results

/-- The parsed command-line arguments relevant to control flow. -/
structure Args where
  phase : Option Selection
  resume : Option Int
  dry_run : Bool

/-- How the top-level `try` block around the run ends: normally, by
`KeyboardInterrupt`, or by an unhandled exception. -/
inductive RunEvent where
  | normal
  | interrupted
  | fatalException
deriving DecidableEq

/-- `main`: argument validation (argparse exits 2 on a usage error), the
`.claude` marker check (`sys.exit(1)`), then the run.  A `KeyboardInterrupt`
or an unhandled exception exits 1 after best-effort persistence; a run that
returns normally — even one halted by a failed phase — falls off the end of
`main` and the process exits 0.  Returns the exit code and, for a normal
run, the final run state. -/
def main_run (catalog : List (Int × PhaseInfo)) (args : Args)
    (marker_exists : Bool) (event : RunEvent) (env : Env)
    (store₀ : List PhaseResult) : Nat × Option RunState :=
  if args.phase.isNone ∧ args.resume.isNone then (2, none)
  else if ¬ marker_exists then (1, none)
  else
    match event with
    | .interrupted => (1, none)
    | .fatalException => (1, none)
    | .normal =>
      match args.resume with
      | some k => (0, some (resume_from catalog args.dry_run env k store₀))
      | none =>
        match args.phase with
        | some sel => (0, some (run_phases catalog args.dry_run env sel store₀))
        | none => (2, none)

/-- The record produced by the dry-run branch of `execute_phase`. -/
def dryRecord (phase_number : Int) (info : PhaseInfo) : PhaseResult :=
  { phase_number := phase_number, phase_name := info.name,
    status := .skipped, command_used := some ("/" ++ info.command) }

/-- An environment in which every phase's command exits 0. -/
def env0 : Env := { outcome := fun _ => .exited 0, clock := fun n => (n : Int) }

/-- An environment in which every phase's command exits 1. -/
def envFail1 : Env := { outcome := fun _ => .exited 1, clock := fun n => (n : Int) }

/-- An environment in which every launch attempt raises an exception. -/
def envBoom : Env := { outcome := fun _ => .launchFailure "boom", clock := fun n => (n : Int) }

/-- A previously recorded failure of phase 1. -/
def rA : PhaseResult :=
  { phase_number := 1, phase_name := "Database Foundation", status := .failed,
    error_message := some "Command exited with code 2",
    output_file := some "scripts/outputs/phase1_0.log" }

/-- A previously recorded completion of phase 2. -/
def rB : PhaseResult :=
  { phase_number := 2, phase_name := "Lifecycle Management APIs", status := .completed }

/-- The catalog entry for phase 1. -/
def phase1info : PhaseInfo :=
  { name := "Database Foundation", command := "docjays-phase1",
    duration_estimate := "1-2 weeks",
    description := "Enhanced schema with taxonomy, lifecycle tracking, usage metadata" }

/-- The result produced for phase 1 by `execute_phase` in `env0`. -/
def c4res : PhaseResult :=
  { phase_number := 1, phase_name := "Database Foundation",
    status := .completed, start_time := some 1, end_time := some 2,
    duration_seconds := some 1, error_message := none,
    command_used := some "claude /docjays-phase1",
    output_file := some "scripts/outputs/phase1_0.log" }

/-- No spawn or log-creation effect in `l` concerns phase `p`. -/
def NoPhaseTouch (p : Int) (l : List Effect) : Prop :=
  ∀ e ∈ l, (∀ cmd, e ≠ .spawn cmd p) ∧ (∀ path, e ≠ .createLog path p)

/-- A stored completion of phase 1. -/
def cRec : PhaseResult :=
  { phase_number := 1, phase_name := "Database Foundation",
    status := .completed, start_time := some 0, end_time := some 9,
    duration_seconds := some 9,
    command_used := some "claude /docjays-phase1",
    output_file := some "scripts/outputs/phase1_0.log" }

/-- No record of the collection has status `in_progress`. -/
def NoInProgress (l : List PhaseResult) : Prop :=
  ∀ r ∈ l, r.status ≠ PhaseStatus.in_progress

/-- No record for phase `p` in the collection is `completed`. -/
def NoCompletedFor (p : Int) (l : List PhaseResult) : Prop :=
  ∀ r ∈ l, r.phase_number = p → r.status ≠ PhaseStatus.completed

/-- The result `execute_phase` produces for phase 1 when its command exits 0
(the clock-read counter starts at 0). -/
def c2r1 (env : Env) : PhaseResult :=
  { phase_number := 1, phase_name := "Database Foundation",
    status := .completed, start_time := some (env.clock 1),
    end_time := some (env.clock 2),
    duration_seconds := some (env.clock 2 - env.clock 1),
    error_message := none, command_used := some "claude /docjays-phase1",
    output_file := some (log_path 1 (env.clock 0)) }

/-- The result `execute_phase` produces for phase 2 when its command exits
with the nonzero code `c` (the clock-read counter starts at 3). -/
def c2r2 (env : Env) (c : Int) : PhaseResult :=
  { phase_number := 2, phase_name := "Lifecycle Management APIs",
    status := .failed, start_time := some (env.clock 4),
    end_time := some (env.clock 5),
    duration_seconds := some (env.clock 5 - env.clock 4),
    error_message := some ("Command exited with code " ++ toString c),
    command_used := some "claude /docjays-phase2",
    output_file := some (log_path 2 (env.clock 3)) }

/-- An environment in which phase 1 succeeds and every other phase's command
exits 5. -/
def envC2 : Env :=
  { outcome := fun p => if p = 1 then .exited 0 else .exited 5,
    clock := fun n => (n : Int) }

/-! ### Theorems -/

/-- `PhaseStatus(status.value)` recovers every enum member. -/
theorem statusOfValue_statusValue (s : PhaseStatus) :
    statusOfValue (statusValue s) = some s := by
  cases s <;> rfl

/-- Parsing a record written by `save_progress` recovers it field for field. -/
theorem parse_serialize (r : PhaseResult) : parse_result (serialize r) = some r := by
  rcases r with ⟨pn, nm, st, a, b, c, d, e, f⟩
  cases st <;> rfl

/-- C7: saving any collection of `PhaseResult` records and loading it back
yields the same collection field for field; only the last-updated timestamp
of the file is refreshed by the save. -/
theorem claim_C7_save_load_roundtrip (now : Int) (R : List PhaseResult) :
    load_progress (some (save_progress now R)) = some R ∧
    (save_progress now R).last_updated = now := by
  refine ⟨?_, rfl⟩
  show parse_results (R.map serialize) = some R
  induction R with
  | nil => rfl
  | cons r rs ih =>
    simp only [List.map_cons, parse_results, parse_serialize r, ih]

/-- C3 counterexample: on the launch-failure path (`subprocess.Popen`
raises), the produced result has both timestamps present yet no duration —
`start_time` is set before the `try` block and `end_time` inside the
`except` clause, but `duration_seconds` is only computed on the normal
path. -/
theorem claim_C3_cex :
    (execute_phase PHASES false envBoom 0 1).map
        (fun x => (x.1.start_time, x.1.end_time, x.1.duration_seconds)) =
      some (some 1, some 2, none) := rfl

/-- C3 (amended): whenever `duration_seconds` is present it equals
end-minus-start, and it is absent whenever either timestamp is absent; on
the exception path, however, both timestamps are present while the duration
is absent. -/
theorem claim_C3_duration (catalog : List (Int × PhaseInfo)) (b : Bool) (env : Env)
    (ctr : Nat) (p : Int) (r : PhaseResult) (effs : List Effect) (ctr' : Nat)
    (h : execute_phase catalog b env ctr p = some (r, effs, ctr')) :
    (∀ d, r.duration_seconds = some d →
      ∃ s e, r.start_time = some s ∧ r.end_time = some e ∧ d = e - s) ∧
    ((r.start_time = none ∨ r.end_time = none) → r.duration_seconds = none) ∧
    (∀ msg, b = false → env.outcome p = .launchFailure msg →
      r.start_time.isSome ∧ r.end_time.isSome ∧ r.duration_seconds = none) := by
  unfold execute_phase at h
  cases hl : List.lookup p catalog with
  | none => simp only [hl] at h; cases h
  | some info =>
    cases b with
    | true =>
      simp only [hl, eq_self_iff_true, if_true, Option.some.injEq, Prod.mk.injEq] at h
      obtain ⟨rfl, rfl, rfl⟩ := h
      refine ⟨?_, ?_, ?_⟩
      · exact fun d hd => by cases hd
      · exact fun _ => rfl
      · exact fun msg hb _ => by cases hb
    | false =>
      simp only [hl, Bool.false_eq_true, if_false] at h
      cases ho : env.outcome p with
      | launchFailure msg =>
        rw [ho] at h
        simp only [Option.some.injEq, Prod.mk.injEq] at h
        obtain ⟨rfl, rfl, rfl⟩ := h
        refine ⟨?_, ?_, ?_⟩
        · exact fun d hd => by cases hd
        · exact fun _ => rfl
        · exact fun _ _ _ => ⟨rfl, rfl, rfl⟩
      | exited code =>
        rw [ho] at h
        simp only [Option.some.injEq, Prod.mk.injEq] at h
        obtain ⟨rfl, rfl, rfl⟩ := h
        refine ⟨fun d hd => ?_, fun hc => ?_, fun msg _ hm => by cases hm⟩
        · exact ⟨env.clock (ctr + 1), env.clock (ctr + 2), rfl, rfl, by simpa using hd.symm⟩
        · rcases hc with hc | hc <;> cases hc

/-- C3 amended-claim witness at the concrete dry-run input of phase 1. -/
theorem claim_C3_duration_witness :
    (∀ d, (dryRecord 1 phase1info).duration_seconds = some d →
      ∃ s e, (dryRecord 1 phase1info).start_time = some s ∧
        (dryRecord 1 phase1info).end_time = some e ∧ d = e - s) ∧
    (((dryRecord 1 phase1info).start_time = none ∨
        (dryRecord 1 phase1info).end_time = none) →
      (dryRecord 1 phase1info).duration_seconds = none) :=
  ⟨(claim_C3_duration PHASES true env0 0 1 (dryRecord 1 phase1info) [] 0 (by decide)).1,
   (claim_C3_duration PHASES true env0 0 1 (dryRecord 1 phase1info) [] 0 (by decide)).2.1⟩

/-- C1 counterexample: a run in which the only planned phase fails still
exits with code 0 — `run_phases` halts on the failure, returns normally,
and `main` falls off the end without calling `sys.exit`. -/
theorem claim_C1_cex :
    (main_run PHASES { phase := some (.single 1), resume := none, dry_run := false }
        true .normal envFail1 []).1 = 0 ∧
    ((main_run PHASES { phase := some (.single 1), resume := none, dry_run := false }
        true .normal envFail1 []).2.map fun st => st.results.map fun r => r.status) =
      some [PhaseStatus.failed] := by
  exact ⟨rfl, rfl⟩

/-- C1 (amended): the exit code is 0 exactly when the arguments are valid,
the project marker exists, and the run returns normally — including a run
halted by a failed phase; it is nonzero on usage error, missing marker,
unhandled exception, or interruption.  A failed phase alone never makes the
exit code nonzero. -/
theorem claim_C1_exit_code (catalog : List (Int × PhaseInfo)) (args : Args)
    (marker : Bool) (event : RunEvent) (env : Env) (store₀ : List PhaseResult) :
    (main_run catalog args marker event env store₀).1 = 0 ↔
      ((args.phase.isSome ∨ args.resume.isSome) ∧ marker = true ∧ event = .normal) := by
  rcases args with ⟨phase, resume, dr⟩
  unfold main_run
  cases phase <;> cases resume <;> cases marker <;> cases event <;> simp

/-- C8: for any catalog identifier K of the 1..7 catalog, `resume_from K`
runs exactly the plan of the range selection `K-7`, and that plan is the
ascending list of catalog identifiers that are at least K. -/
theorem claim_C8_resume_plan (b : Bool) (env : Env) (store₀ : List PhaseResult)
    (K : Int) (h1 : 1 ≤ K) (h7 : K ≤ 7) :
    resume_from PHASES b env K store₀ = run_phases PHASES b env (.range K 7) store₀ ∧
    resolve_plan PHASES (.range K (max_key PHASES)) = resolve_plan PHASES (.range K 7) ∧
    resolve_plan PHASES (.range K 7) =
      (PHASES.map Prod.fst).filter (fun q => decide (K ≤ q)) := by
  have hmx : max_key PHASES = 7 := rfl
  refine ⟨by rw [resume_from, hmx], by rw [hmx], ?_⟩
  interval_cases K <;> rfl

/-- C8 witness at K = 3. -/
theorem claim_C8_resume_plan_witness :
    (1 ≤ (3 : Int)) ∧ ((3 : Int) ≤ 7) ∧
    (resume_from PHASES false env0 3 [] = run_phases PHASES false env0 (.range 3 7) [] ∧
     resolve_plan PHASES (.range 3 (max_key PHASES)) = resolve_plan PHASES (.range 3 7) ∧
     resolve_plan PHASES (.range 3 7) =
       (PHASES.map Prod.fst).filter (fun q => decide ((3 : Int) ≤ q))) :=
  ⟨by decide, by decide, claim_C8_resume_plan false env0 [] 3 (by decide) (by decide)⟩

/-- C10: a dry run over a plan containing phase `p` replaces an existing
non-completed record for `p` (for example a recorded failure, with its error
message and log path) by the bare `skipped` dry-run record, and persists the
replaced collection; the dry-run record has no timestamps, no duration, no
error message and no log path. -/
theorem claim_C10_dry_run_overwrites (env : Env) (store₀ : List PhaseResult)
    (p : Int) (info : PhaseInfo) (r₀ : PhaseResult)
    (hcat : List.lookup p PHASES = some info)
    (hfind : store₀.find? (fun r => r.phase_number == p) = some r₀)
    (hnc : r₀.status ≠ .completed) :
    run_phases PHASES true env (.single p) store₀ =
      { results := store₀.erase r₀ ++ [dryRecord p info], ctr := 0,
        effects := [Effect.save (store₀.erase r₀ ++ [dryRecord p info])] } ∧
    (dryRecord p info).status = .skipped ∧ (dryRecord p info).start_time = none ∧
    (dryRecord p info).end_time = none ∧ (dryRecord p info).duration_seconds = none ∧
    (dryRecord p info).error_message = none ∧ (dryRecord p info).output_file = none := by
  refine ⟨?_, rfl, rfl, rfl, rfl, rfl, rfl⟩
  have hstep : run_step PHASES true env ⟨store₀, 0, []⟩ p =
      ({ results := store₀.erase r₀ ++ [dryRecord p info], ctr := 0,
         effects := [Effect.save (store₀.erase r₀ ++ [dryRecord p info])] }, false) := by
    unfold run_step execute_phase
    simp only [hcat, eq_self_iff_true, if_true, hfind, if_neg hnc, dryRecord]
    rfl
  show run_phases_go PHASES true env [p] ⟨store₀, 0, []⟩ = _
  unfold run_phases_go
  rw [hstep]
  rfl

/-- C10 witness: a concrete dry run over phase 1 whose store holds a
recorded failure for phase 1. -/
theorem claim_C10_dry_run_overwrites_witness :
    run_phases PHASES true env0 (.single 1) [rA] =
      { results := [rA].erase rA ++ [dryRecord 1 phase1info], ctr := 0,
        effects := [Effect.save ([rA].erase rA ++ [dryRecord 1 phase1info])] } :=
  (claim_C10_dry_run_overwrites env0 [rA] 1 phase1info rA (by decide) (by decide)
    (by decide)).1

/-- A run over the single-phase plan `[p]` is one loop iteration. -/
theorem run_phases_single (catalog : List (Int × PhaseInfo)) (b : Bool) (env : Env)
    (p : Int) (store₀ : List PhaseResult) :
    run_phases catalog b env (.single p) store₀ =
      (run_step catalog b env ⟨store₀, 0, []⟩ p).1 := by
  cases h : (run_step catalog b env ⟨store₀, 0, []⟩ p).2 <;>
    simp [run_phases, resolve_plan, run_phases_go, h]

/-- C4 counterexample: re-running phase 1 against the store `[rA, rB]`
(where `rA` is an old failure of phase 1) moves phase 1's record to the end
of the collection instead of replacing it in place — the final order of
phase numbers is `[2, 1]`, not the original `[1, 2]`. -/
theorem claim_C4_cex :
    ((run_phases PHASES false env0 (.single 1) [rA, rB]).results.map
        (fun r => r.phase_number)) = [2, 1] ∧
    ((run_phases PHASES false env0 (.single 1) [rA, rB]).results.map
        (fun r => r.phase_number)) ≠
      ([rA, rB].map (fun r => r.phase_number)) :=
  ⟨rfl, by decide⟩

/-- C4 (amended): recording a new result for an identifier that already has
a (non-completed) record removes the old record from its position and
appends the new record at the end of the collection; a result for a new
identifier is likewise appended at the end. -/
theorem claim_C4_upsert (catalog : List (Int × PhaseInfo)) (b : Bool) (env : Env)
    (store₀ : List PhaseResult) (p : Int) (result : PhaseResult)
    (effs : List Effect) (ctr' : Nat)
    (hexec : execute_phase catalog b env 0 p = some (result, effs, ctr')) :
    (∀ r₀, store₀.find? (fun r => r.phase_number == p) = some r₀ →
      r₀.status ≠ .completed →
      (run_phases catalog b env (.single p) store₀).results =
        store₀.erase r₀ ++ [result]) ∧
    (store₀.find? (fun r => r.phase_number == p) = none →
      (run_phases catalog b env (.single p) store₀).results =
        store₀ ++ [result]) := by
  have hs := run_phases_single catalog b env p store₀
  constructor
  · intro r₀ hf hnc
    rw [hs]
    unfold run_step
    simp only [hexec, hf, if_neg hnc]
  · intro hf
    rw [hs]
    unfold run_step
    simp only [hexec, hf]

/-- C4 amended-claim witness: the concrete store `[rA, rB]` re-running
phase 1. -/
theorem claim_C4_upsert_witness :
    (run_phases PHASES false env0 (.single 1) [rA, rB]).results =
      ([rA, rB].erase rA) ++ [c4res] :=
  (claim_C4_upsert PHASES false env0 [rA, rB] 1 c4res
      [Effect.spawn "claude /docjays-phase1" 1,
       Effect.createLog "scripts/outputs/phase1_0.log" 1] 3 (by decide)).1
    rA (by decide) (by decide)

/-- `find?` is unaffected by erasing an element that fails the predicate. -/
theorem find?_erase_of_neg {α : Type} [DecidableEq α] (l : List α) (v : α)
    (q : α → Bool) (hv : q v = false) (r₀ : α) (h : l.find? q = some r₀) :
    (l.erase v).find? q = some r₀ := by
  induction l with
  | nil => cases h
  | cons a t ih =>
    by_cases hav : a = v
    · subst hav
      rw [List.erase_cons_head]
      rwa [List.find?_cons_of_neg _ (by simp [hv])] at h
    · rw [List.erase_cons_tail (by simpa using hav)]
      cases hq : q a
      · rw [List.find?_cons_of_neg _ (by simp [hq])] at h
        rw [List.find?_cons_of_neg _ (by simp [hq])]
        exact ih h
      · rw [List.find?_cons_of_pos _ hq] at h
        rw [List.find?_cons_of_pos _ hq]
        exact h

/-- A successful `find?` on a prefix survives appending. -/
theorem find?_append_some {α : Type} (l₁ l₂ : List α) (q : α → Bool) (r₀ : α)
    (h : l₁.find? q = some r₀) : (l₁ ++ l₂).find? q = some r₀ := by
  induction l₁ with
  | nil => cases h
  | cons a t ih =>
    cases hq : q a
    · rw [List.find?_cons_of_neg _ (by simp [hq])] at h
      rw [List.cons_append, List.find?_cons_of_neg _ (by simp [hq])]
      exact ih h
    · rw [List.find?_cons_of_pos _ hq] at h
      rw [List.cons_append, List.find?_cons_of_pos _ hq]
      exact h

/-- Any result produced by `execute_phase` carries the executed phase's
number, never carries `in_progress` (or `pending`), and every spawn or
log-creation effect it produces is tagged with that phase. -/
theorem execute_phase_spec (catalog : List (Int × PhaseInfo)) (b : Bool) (env : Env)
    (ctr : Nat) (p : Int) (r : PhaseResult) (effs : List Effect) (ctr' : Nat)
    (h : execute_phase catalog b env ctr p = some (r, effs, ctr')) :
    r.phase_number = p ∧ r.status ≠ .in_progress ∧ r.status ≠ .pending ∧
    (∀ e ∈ effs, (∃ cmd, e = .spawn cmd p) ∨ (∃ path, e = .createLog path p)) := by
  unfold execute_phase at h
  cases hl : List.lookup p catalog with
  | none => simp only [hl] at h; cases h
  | some info =>
    cases b with
    | true =>
      simp only [hl, eq_self_iff_true, if_true, Option.some.injEq, Prod.mk.injEq] at h
      obtain ⟨rfl, rfl, rfl⟩ := h
      refine ⟨rfl, by simp, by simp, by simp⟩
    | false =>
      simp only [hl, Bool.false_eq_true, if_false] at h
      cases ho : env.outcome p with
      | launchFailure msg =>
        rw [ho] at h
        simp only [Option.some.injEq, Prod.mk.injEq] at h
        obtain ⟨rfl, rfl, rfl⟩ := h
        refine ⟨rfl, by simp, by simp, by simp⟩
      | exited code =>
        rw [ho] at h
        simp only [Option.some.injEq, Prod.mk.injEq] at h
        obtain ⟨rfl, rfl, rfl⟩ := h
        refine ⟨rfl, ?_, ?_, ?_⟩
        · show (if code = 0 then PhaseStatus.completed else PhaseStatus.failed) ≠ _
          split <;> simp
        · show (if code = 0 then PhaseStatus.completed else PhaseStatus.failed) ≠ _
          split <;> simp
        · intro e he
          simp only [List.mem_cons, List.not_mem_nil, or_false] at he
          rcases he with rfl | rfl
          · exact Or.inl ⟨_, rfl⟩
          · exact Or.inr ⟨_, rfl⟩

/-- In dry-run mode `execute_phase` produces exactly the dry-run record of
the catalog entry, no effects, and leaves the clock untouched. -/
theorem execute_phase_dry_eq (catalog : List (Int × PhaseInfo)) (env : Env)
    (ctr : Nat) (p : Int) (info : PhaseInfo)
    (h : List.lookup p catalog = some info) :
    execute_phase catalog true env ctr p = some (dryRecord p info, [], ctr) := by
  unfold execute_phase
  rw [h]
  rfl

/-- Unfolding equation of the loop for a non-empty plan. -/
theorem run_phases_go_cons (catalog : List (Int × PhaseInfo)) (b : Bool) (env : Env)
    (q : Int) (rest : List Int) (st : RunState) :
    run_phases_go catalog b env (q :: rest) st =
      if (run_step catalog b env st q).2 = true then (run_step catalog b env st q).1
      else run_phases_go catalog b env rest (run_step catalog b env st q).1 := rfl

/-- A phase whose first store record is `completed` is skipped outright:
the loop body leaves the state untouched and does not break. -/
theorem run_step_completed_skip (catalog : List (Int × PhaseInfo)) (b : Bool)
    (env : Env) (p : Int) (r₀ : PhaseResult) (st : RunState)
    (hf : st.results.find? (fun r => r.phase_number == p) = some r₀)
    (hdone : r₀.status = .completed) :
    run_step catalog b env st p = (st, false) := by
  unfold run_step
  cases hx : execute_phase catalog b env st.ctr p with
  | none => rfl
  | some val =>
    obtain ⟨result, effs, ctr'⟩ := val
    simp only [hf, if_pos hdone]

/-- Appending effects of a phase other than `p`, plus a save, preserves
`NoPhaseTouch p`. -/
theorem noPhaseTouch_extend (p q : Int) (hqp : q ≠ p) (base effs : List Effect)
    (rs : List PhaseResult) (hbase : NoPhaseTouch p base)
    (heffs : ∀ e ∈ effs, (∃ cmd, e = .spawn cmd q) ∨ (∃ path, e = .createLog path q)) :
    NoPhaseTouch p (base ++ effs ++ [Effect.save rs]) := by
  intro e hmem
  simp only [List.mem_append, List.mem_singleton] at hmem
  rcases hmem with (hmem | hmem) | rfl
  · exact hbase e hmem
  · rcases heffs e hmem with ⟨cmd, rfl⟩ | ⟨path, rfl⟩
    · refine ⟨?_, ?_⟩
      · intro cmd' hne
        injection hne with h1 h2
        exact hqp h2
      · intro path' hne
        cases hne
    · refine ⟨?_, ?_⟩
      · intro cmd' hne
        cases hne
      · intro path' hne
        injection hne with h1 h2
        exact hqp h2
  · refine ⟨?_, ?_⟩
    · intro cmd' hne
      cases hne
    · intro path' hne
      cases hne

/-- One loop iteration preserves "phase `p`'s first record is the untouched
completed `r₀`, and no effect so far concerned `p`". -/
theorem run_step_preserves_completed (catalog : List (Int × PhaseInfo)) (b : Bool)
    (env : Env) (p : Int) (r₀ : PhaseResult) (hdone : r₀.status = .completed)
    (st : RunState) (q : Int)
    (hf : st.results.find? (fun r => r.phase_number == p) = some r₀)
    (he : NoPhaseTouch p st.effects) :
    (run_step catalog b env st q).1.results.find?
        (fun r => r.phase_number == p) = some r₀ ∧
    NoPhaseTouch p (run_step catalog b env st q).1.effects := by
  by_cases hqp : q = p
  · subst hqp
    rw [run_step_completed_skip catalog b env q r₀ st hf hdone]
    exact ⟨hf, he⟩
  · unfold run_step
    cases hx : execute_phase catalog b env st.ctr q with
    | none => exact ⟨hf, he⟩
    | some val =>
      obtain ⟨result, effs, ctr'⟩ := val
      obtain ⟨hrq, -, -, heffs⟩ :=
        execute_phase_spec catalog b env st.ctr q result effs ctr' hx
      cases hfq : st.results.find? (fun r => r.phase_number == q) with
      | some existing =>
        by_cases hc : existing.status = PhaseStatus.completed
        · simp only [hfq, if_pos hc]
          exact ⟨hf, he⟩
        · simp only [hfq, if_neg hc]
          have hexq : existing.phase_number = q := by
            simpa using List.find?_some hfq
          have hvp : (fun r => r.phase_number == p) existing = false := by
            simp [hexq, hqp]
          refine ⟨?_, ?_⟩
          · exact find?_append_some _ _ _ _
              (find?_erase_of_neg st.results existing _ hvp r₀ hf)
          · exact noPhaseTouch_extend p q hqp st.effects effs _ he heffs
      | none =>
        simp only [hfq]
        exact ⟨find?_append_some _ _ _ _ hf,
               noPhaseTouch_extend p q hqp st.effects effs _ he heffs⟩

/-- The whole loop preserves the completed-record invariant. -/
theorem run_go_preserves_completed (catalog : List (Int × PhaseInfo)) (b : Bool)
    (env : Env) (p : Int) (r₀ : PhaseResult) (hdone : r₀.status = .completed) :
    ∀ (plan : List Int) (st : RunState),
      st.results.find? (fun r => r.phase_number == p) = some r₀ →
      NoPhaseTouch p st.effects →
      ((run_phases_go catalog b env plan st).results.find?
          (fun r => r.phase_number == p) = some r₀ ∧
       NoPhaseTouch p (run_phases_go catalog b env plan st).effects) := by
  intro plan
  induction plan with
  | nil => exact fun st hf he => ⟨hf, he⟩
  | cons q rest ih =>
    intro st hf he
    obtain ⟨hf', he'⟩ :=
      run_step_preserves_completed catalog b env p r₀ hdone st q hf he
    rw [run_phases_go_cons]
    cases hbr : (run_step catalog b env st q).2
    · rw [if_neg (by simp [hbr])]
      exact ih _ hf' he'
    · rw [if_pos (by simp [hbr])]
      exact ⟨hf', he'⟩

/-- C6: a phase identifier whose first stored record is `completed` is never
the subject of a subprocess spawn or log creation during any later run, and
its stored record survives the run untouched as the first record for that
identifier. -/
theorem claim_C6_completed_untouched (catalog : List (Int × PhaseInfo)) (b : Bool)
    (env : Env) (sel : Selection) (store₀ : List PhaseResult) (p : Int)
    (r₀ : PhaseResult)
    (hf : store₀.find? (fun r => r.phase_number == p) = some r₀)
    (hdone : r₀.status = .completed) :
    (run_phases catalog b env sel store₀).results.find?
        (fun r => r.phase_number == p) = some r₀ ∧
    NoPhaseTouch p (run_phases catalog b env sel store₀).effects :=
  run_go_preserves_completed catalog b env p r₀ hdone (resolve_plan catalog sel)
    ⟨store₀, 0, []⟩ hf (fun e he => absurd he (List.not_mem_nil e))

/-- C6 witness: re-running the plan `1-2` over a store in which phase 1 is
completed. -/
theorem claim_C6_completed_untouched_witness :
    (run_phases PHASES false env0 (.range 1 2) [cRec]).results.find?
        (fun r => r.phase_number == 1) = some cRec ∧
    NoPhaseTouch 1 (run_phases PHASES false env0 (.range 1 2) [cRec]).effects :=
  claim_C6_completed_untouched PHASES false env0 (.range 1 2) [cRec] 1 cRec
    (by decide) (by decide)

/-- One loop iteration keeps the working collection and every persisted
collection free of `in_progress`. -/
theorem run_step_no_in_progress (catalog : List (Int × PhaseInfo)) (b : Bool)
    (env : Env) (st : RunState) (q : Int)
    (hres : NoInProgress st.results)
    (heff : ∀ rs, Effect.save rs ∈ st.effects → NoInProgress rs) :
    NoInProgress (run_step catalog b env st q).1.results ∧
    (∀ rs, Effect.save rs ∈ (run_step catalog b env st q).1.effects →
      NoInProgress rs) := by
  unfold run_step
  cases hx : execute_phase catalog b env st.ctr q with
  | none => exact ⟨hres, heff⟩
  | some val =>
    obtain ⟨result, effs, ctr'⟩ := val
    obtain ⟨-, hstat, -, heffs⟩ :=
      execute_phase_spec catalog b env st.ctr q result effs ctr' hx
    have hstep : ∀ base : List PhaseResult,
        (∀ r ∈ base, r.status ≠ PhaseStatus.in_progress) →
        NoInProgress (base ++ [result]) := by
      intro base hb r hr
      rcases List.mem_append.mp hr with hr | hr
      · exact hb r hr
      · rw [List.mem_singleton.mp hr]
        exact hstat
    have heffstep : ∀ base : List PhaseResult,
        NoInProgress base →
        ∀ rs, Effect.save rs ∈ st.effects ++ effs ++ [Effect.save base] →
          NoInProgress rs := by
      intro base hb rs hmem
      simp only [List.mem_append, List.mem_singleton] at hmem
      rcases hmem with (hmem | hmem) | heq
      · exact heff rs hmem
      · rcases heffs _ hmem with ⟨cmd, hsp⟩ | ⟨path, hsp⟩ <;> cases hsp
      · injection heq with hrs
        rw [hrs]
        exact hb
    cases hfq : st.results.find? (fun r => r.phase_number == q) with
    | some existing =>
      by_cases hc : existing.status = PhaseStatus.completed
      · simp only [hfq, if_pos hc]
        exact ⟨hres, heff⟩
      · simp only [hfq, if_neg hc]
        have hb : NoInProgress (st.results.erase existing ++ [result]) :=
          hstep _ (fun r hr => hres r (List.mem_of_mem_erase hr))
        exact ⟨hb, heffstep _ hb⟩
    | none =>
      simp only [hfq]
      have hb : NoInProgress (st.results ++ [result]) := hstep _ hres
      exact ⟨hb, heffstep _ hb⟩

/-- The whole loop keeps the working collection and every persisted
collection free of `in_progress`. -/
theorem run_go_no_in_progress (catalog : List (Int × PhaseInfo)) (b : Bool)
    (env : Env) :
    ∀ (plan : List Int) (st : RunState),
      NoInProgress st.results →
      (∀ rs, Effect.save rs ∈ st.effects → NoInProgress rs) →
      (NoInProgress (run_phases_go catalog b env plan st).results ∧
       ∀ rs, Effect.save rs ∈ (run_phases_go catalog b env plan st).effects →
         NoInProgress rs) := by
  intro plan
  induction plan with
  | nil => exact fun st h1 h2 => ⟨h1, h2⟩
  | cons q rest ih =>
    intro st h1 h2
    obtain ⟨h1', h2'⟩ := run_step_no_in_progress catalog b env st q h1 h2
    rw [run_phases_go_cons]
    cases hbr : (run_step catalog b env st q).2
    · rw [if_neg (by simp [hbr])]
      exact ih _ h1' h2'
    · rw [if_pos (by simp [hbr])]
      exact ⟨h1', h2'⟩

/-- C9: starting from a store with no `in_progress` record, every collection
the run hands to `save_progress` consists solely of records whose status is
one of `pending`, `completed`, `failed`, `skipped` — `in_progress` is never
persisted. -/
theorem claim_C9_no_in_progress_persisted (catalog : List (Int × PhaseInfo))
    (b : Bool) (env : Env) (sel : Selection) (store₀ : List PhaseResult)
    (h0 : ∀ r ∈ store₀, r.status ≠ PhaseStatus.in_progress) :
    ∀ rs, Effect.save rs ∈ (run_phases catalog b env sel store₀).effects →
      ∀ r ∈ rs, r.status = .pending ∨ r.status = .completed ∨
        r.status = .failed ∨ r.status = .skipped := by
  have h := run_go_no_in_progress catalog b env (resolve_plan catalog sel)
    ⟨store₀, 0, []⟩ h0 (fun rs hmem => absurd hmem (List.not_mem_nil _))
  intro rs hmem r hr
  have hne := h.2 rs hmem r hr
  cases hs : r.status with
  | pending => exact Or.inl rfl
  | in_progress => exact absurd hs hne
  | completed => exact Or.inr (Or.inl rfl)
  | failed => exact Or.inr (Or.inr (Or.inl rfl))
  | skipped => exact Or.inr (Or.inr (Or.inr rfl))

/-- C9 witness: in the concrete run of phase 1 from the empty store, the one
record of the one persisted collection carries a terminal status. -/
theorem claim_C9_no_in_progress_persisted_witness :
    c4res.status = .pending ∨ c4res.status = .completed ∨
      c4res.status = .failed ∨ c4res.status = .skipped :=
  claim_C9_no_in_progress_persisted PHASES false env0 (.single 1) []
    (fun r hr => absurd hr (List.not_mem_nil r)) [c4res] (by decide) c4res (by decide)

/-- Inversion for dry-run execution: the result is the dry-run record of the
catalog entry, there are no spawn/log effects, and the clock is untouched. -/
theorem execute_phase_dry_inv (catalog : List (Int × PhaseInfo)) (env : Env)
    (ctr : Nat) (p : Int) (r : PhaseResult) (effs : List Effect) (ctr' : Nat)
    (h : execute_phase catalog true env ctr p = some (r, effs, ctr')) :
    ∃ info, List.lookup p catalog = some info ∧ r = dryRecord p info ∧
      effs = [] ∧ ctr' = ctr := by
  unfold execute_phase at h
  cases hl : List.lookup p catalog with
  | none => simp only [hl] at h; cases h
  | some info =>
    simp only [hl, eq_self_iff_true, if_true, Option.some.injEq, Prod.mk.injEq] at h
    obtain ⟨rfl, rfl, rfl⟩ := h
    exact ⟨info, rfl, rfl, rfl, rfl⟩

/-- A dry-run loop iteration never breaks: the produced status is `skipped`,
never `failed`. -/
theorem run_step_dry_no_break (catalog : List (Int × PhaseInfo)) (env : Env)
    (st : RunState) (q : Int) :
    (run_step catalog true env st q).2 = false := by
  unfold run_step
  cases hx : execute_phase catalog true env st.ctr q with
  | none => rfl
  | some val =>
    obtain ⟨result, effs, ctr'⟩ := val
    obtain ⟨info, hl, rfl, rfl, rfl⟩ :=
      execute_phase_dry_inv catalog env st.ctr q result effs ctr' hx
    cases hfq : st.results.find? (fun r => r.phase_number == q) with
    | some existing =>
      by_cases hc : existing.status = PhaseStatus.completed
      · simp [hfq, hc]
      · simp [hfq, hc, dryRecord]
    | none => simp [hfq, dryRecord]

/-- A dry-run loop iteration adds only persistence effects. -/
theorem run_step_dry_saves (catalog : List (Int × PhaseInfo)) (env : Env)
    (st : RunState) (q : Int)
    (h : ∀ e ∈ st.effects, e.isSave = true) :
    ∀ e ∈ (run_step catalog true env st q).1.effects, e.isSave = true := by
  unfold run_step
  cases hx : execute_phase catalog true env st.ctr q with
  | none => exact h
  | some val =>
    obtain ⟨result, effs, ctr'⟩ := val
    obtain ⟨info, hl, rfl, rfl, rfl⟩ :=
      execute_phase_dry_inv catalog env st.ctr q result effs ctr' hx
    have hext : ∀ base : List PhaseResult,
        ∀ e ∈ st.effects ++ [] ++ [Effect.save base], e.isSave = true := by
      intro base e hmem
      simp only [List.append_nil, List.mem_append, List.mem_singleton] at hmem
      rcases hmem with hmem | rfl
      · exact h e hmem
      · rfl
    cases hfq : st.results.find? (fun r => r.phase_number == q) with
    | some existing =>
      by_cases hc : existing.status = PhaseStatus.completed
      · simp only [hfq, if_pos hc]
        exact h
      · simp only [hfq, if_neg hc]
        exact hext _
    | none =>
      simp only [hfq]
      exact hext _

/-- A dry-run loop iteration preserves `NoCompletedFor p`: it only ever adds
`skipped` records. -/
theorem run_step_dry_NoCompletedFor (catalog : List (Int × PhaseInfo)) (env : Env)
    (st : RunState) (q : Int) (p : Int)
    (h : NoCompletedFor p st.results) :
    NoCompletedFor p (run_step catalog true env st q).1.results := by
  unfold run_step
  cases hx : execute_phase catalog true env st.ctr q with
  | none => exact h
  | some val =>
    obtain ⟨result, effs, ctr'⟩ := val
    obtain ⟨info, hl, rfl, rfl, rfl⟩ :=
      execute_phase_dry_inv catalog env st.ctr q result effs ctr' hx
    have hext : ∀ base : List PhaseResult,
        (∀ r ∈ base, r.phase_number = p → r.status ≠ PhaseStatus.completed) →
        NoCompletedFor p (base ++ [dryRecord q info]) := by
      intro base hb r hr hrp
      rcases List.mem_append.mp hr with hr | hr
      · exact hb r hr hrp
      · rw [List.mem_singleton.mp hr]
        intro hcon
        cases hcon
    cases hfq : st.results.find? (fun r => r.phase_number == q) with
    | some existing =>
      by_cases hc : existing.status = PhaseStatus.completed
      · simp only [hfq, if_pos hc]
        exact h
      · simp only [hfq, if_neg hc]
        exact hext _ (fun r hr => h r (List.mem_of_mem_erase hr))
    | none =>
      simp only [hfq]
      exact hext _ h

/-- Once the dry-run record for `p` is in the collection, any further
dry-run iteration keeps it there. -/
theorem run_step_dry_mem (catalog : List (Int × PhaseInfo)) (env : Env)
    (st : RunState) (q : Int) (p : Int) (info : PhaseInfo)
    (hcat : List.lookup p catalog = some info)
    (hmem : dryRecord p info ∈ st.results) :
    dryRecord p info ∈ (run_step catalog true env st q).1.results := by
  unfold run_step
  cases hx : execute_phase catalog true env st.ctr q with
  | none => exact hmem
  | some val =>
    obtain ⟨result, effs, ctr'⟩ := val
    obtain ⟨info', hl', rfl, rfl, rfl⟩ :=
      execute_phase_dry_inv catalog env st.ctr q result effs ctr' hx
    cases hfq : st.results.find? (fun r => r.phase_number == q) with
    | some existing =>
      by_cases hc : existing.status = PhaseStatus.completed
      · simp only [hfq, if_pos hc]
        exact hmem
      · simp only [hfq, if_neg hc]
        by_cases hqp : q = p
        · subst hqp
          rw [hcat] at hl'
          obtain rfl := Option.some.inj hl'
          exact List.mem_append.mpr (Or.inr (by simp))
        · have hexq : existing.phase_number = q := by
            simpa using List.find?_some hfq
          have hne : dryRecord p info ≠ existing := by
            intro heq
            apply hqp
            rw [← hexq, ← heq]
            rfl
          exact List.mem_append.mpr
            (Or.inl ((List.mem_erase_of_ne hne).mpr hmem))
    | none =>
      simp only [hfq]
      exact List.mem_append.mpr (Or.inl hmem)

/-- A dry-run iteration on `p` itself, over a collection with no completed
record for `p`, puts the dry-run record for `p` into the collection. -/
theorem run_step_dry_self_mem (catalog : List (Int × PhaseInfo)) (env : Env)
    (st : RunState) (p : Int) (info : PhaseInfo)
    (hcat : List.lookup p catalog = some info)
    (hnc : NoCompletedFor p st.results) :
    dryRecord p info ∈ (run_step catalog true env st p).1.results := by
  unfold run_step
  rw [execute_phase_dry_eq catalog env st.ctr p info hcat]
  cases hfq : st.results.find? (fun r => r.phase_number == p) with
  | some existing =>
    have hexp : existing.phase_number = p := by
      simpa using List.find?_some hfq
    have hc : existing.status ≠ PhaseStatus.completed :=
      hnc existing (List.mem_of_find?_eq_some hfq) hexp
    simp only [hfq, if_neg hc]
    exact List.mem_append.mpr (Or.inr (by simp))
  | none =>
    simp only [hfq]
    exact List.mem_append.mpr (Or.inr (by simp))

/-- Membership of the dry-run record survives the rest of a dry run. -/
theorem run_go_dry_mem_pres (catalog : List (Int × PhaseInfo)) (env : Env)
    (p : Int) (info : PhaseInfo) (hcat : List.lookup p catalog = some info) :
    ∀ (plan : List Int) (st : RunState),
      dryRecord p info ∈ st.results →
      dryRecord p info ∈ (run_phases_go catalog true env plan st).results := by
  intro plan
  induction plan with
  | nil => exact fun st h => h
  | cons q rest ih =>
    intro st h
    rw [run_phases_go_cons, if_neg (by simp [run_step_dry_no_break])]
    exact ih _ (run_step_dry_mem catalog env st q p info hcat h)

/-- Planned catalog phases without a prior completed record end a dry run
with their dry-run record in the collection. -/
theorem run_go_dry_mem (catalog : List (Int × PhaseInfo)) (env : Env)
    (p : Int) (info : PhaseInfo) (hcat : List.lookup p catalog = some info) :
    ∀ (plan : List Int) (st : RunState),
      NoCompletedFor p st.results → p ∈ plan →
      dryRecord p info ∈ (run_phases_go catalog true env plan st).results := by
  intro plan
  induction plan with
  | nil => exact fun st _ hp => absurd hp (List.not_mem_nil p)
  | cons q rest ih =>
    intro st hnc hp
    rw [run_phases_go_cons, if_neg (by simp [run_step_dry_no_break])]
    by_cases hqp : q = p
    · subst hqp
      exact run_go_dry_mem_pres catalog env q info hcat rest _
        (run_step_dry_self_mem catalog env st q info hcat hnc)
    · have hp' : p ∈ rest := by
        rcases List.mem_cons.mp hp with h | h
        · exact absurd h.symm hqp
        · exact h
      exact ih _ (run_step_dry_NoCompletedFor catalog env st q p hnc) hp'

/-- Dry runs only ever persist: no other effect is produced. -/
theorem run_go_dry_saves (catalog : List (Int × PhaseInfo)) (env : Env) :
    ∀ (plan : List Int) (st : RunState),
      (∀ e ∈ st.effects, e.isSave = true) →
      ∀ e ∈ (run_phases_go catalog true env plan st).effects, e.isSave = true := by
  intro plan
  induction plan with
  | nil => exact fun st h => h
  | cons q rest ih =>
    intro st h
    rw [run_phases_go_cons, if_neg (by simp [run_step_dry_no_break])]
    exact ih _ (run_step_dry_saves catalog env st q h)

/-- C5 counterexample: a dry run whose planned phase already has a completed
record does not mark that phase `skipped` — the record keeps status
`completed`. -/
theorem claim_C5_cex :
    (run_phases PHASES true env0 (.single 1) [cRec]).results.map
        (fun r => r.status) = [PhaseStatus.completed] ∧
    PhaseStatus.completed ≠ PhaseStatus.skipped :=
  ⟨rfl, by decide⟩

/-- C5 (amended): a dry run never spawns a subprocess and never creates a
log file (its only effects are persistence); and every planned phase that is
in the catalog and has no prior completed record ends the run with a
`skipped` record that names the command that would have run and has no
timestamps, no duration, no error message and no log path. -/
theorem claim_C5_dry_run (catalog : List (Int × PhaseInfo)) (env : Env)
    (sel : Selection) (store₀ : List PhaseResult) (p : Int) (info : PhaseInfo)
    (hcat : List.lookup p catalog = some info)
    (hplan : p ∈ resolve_plan catalog sel)
    (hstore : NoCompletedFor p store₀) :
    (∀ e ∈ (run_phases catalog true env sel store₀).effects, e.isSave = true) ∧
    ∃ r ∈ (run_phases catalog true env sel store₀).results,
      r.phase_number = p ∧ r.status = .skipped ∧ r.start_time = none ∧
      r.end_time = none ∧ r.duration_seconds = none ∧
      r.command_used = some ("/" ++ info.command) ∧ r.error_message = none ∧
      r.output_file = none := by
  constructor
  · exact run_go_dry_saves catalog env (resolve_plan catalog sel) ⟨store₀, 0, []⟩
      (fun e he => absurd he (List.not_mem_nil e))
  · refine ⟨dryRecord p info, ?_, rfl, rfl, rfl, rfl, rfl, rfl, rfl, rfl⟩
    exact run_go_dry_mem catalog env p info hcat (resolve_plan catalog sel)
      ⟨store₀, 0, []⟩ hstore hplan

/-- C5 amended-claim witness: a concrete dry run of phase 1 from the empty
store. -/
theorem claim_C5_dry_run_witness :
    (∀ e ∈ (run_phases PHASES true env0 (.single 1) []).effects,
      e.isSave = true) ∧
    ∃ r ∈ (run_phases PHASES true env0 (.single 1) []).results,
      r.phase_number = 1 ∧ r.status = .skipped ∧ r.start_time = none ∧
      r.end_time = none ∧ r.duration_seconds = none ∧
      r.command_used = some ("/" ++ phase1info.command) ∧ r.error_message = none ∧
      r.output_file = none :=
  claim_C5_dry_run PHASES env0 (.single 1) [] 1 phase1info (by decide) (by decide)
    (fun r hr => absurd hr (List.not_mem_nil r))

/-- C2: over the empty store, running the plan `1-3` where phase 1's command
exits 0 and phase 2's command exits a nonzero code spawns exactly phases 1
and 2 (never phase 3), records phase 1 `completed` and phase 2 `failed`,
halts, and the last persisted collection is exactly those two records. -/
theorem claim_C2_stop_on_failure (env : Env) (c : Int)
    (h1 : env.outcome 1 = .exited 0) (h2 : env.outcome 2 = .exited c)
    (hc : ¬ c = 0) :
    ((run_phases PHASES false env (.range 1 3) []).results.map
        (fun r => (r.phase_number, r.status))) =
      [(1, PhaseStatus.completed), (2, PhaseStatus.failed)] ∧
    (run_phases PHASES false env (.range 1 3) []).results.length = 2 ∧
    spawnPhases (run_phases PHASES false env (.range 1 3) []).effects = [1, 2] ∧
    (savedStores (run_phases PHASES false env (.range 1 3) []).effects).getLast? =
      some (run_phases PHASES false env (.range 1 3) []).results := by
  have hx1 : execute_phase PHASES false env 0 1 =
      some (c2r1 env, [Effect.spawn "claude /docjays-phase1" 1,
        Effect.createLog (log_path 1 (env.clock 0)) 1], 3) := by
    unfold execute_phase
    rw [h1]
    rfl
  have hx2 : execute_phase PHASES false env 3 2 =
      some (c2r2 env c, [Effect.spawn "claude /docjays-phase2" 2,
        Effect.createLog (log_path 2 (env.clock 3)) 2], 6) := by
    unfold execute_phase
    rw [h2]
    simp only [if_neg hc]
    rfl
  have hstep1 : run_step PHASES false env ⟨[], 0, []⟩ 1 =
      (⟨[c2r1 env], 3, [Effect.spawn "claude /docjays-phase1" 1,
         Effect.createLog (log_path 1 (env.clock 0)) 1,
         Effect.save [c2r1 env]]⟩, false) := by
    unfold run_step
    rw [hx1]
    rfl
  have hstep2 : run_step PHASES false env
      ⟨[c2r1 env], 3, [Effect.spawn "claude /docjays-phase1" 1,
         Effect.createLog (log_path 1 (env.clock 0)) 1,
         Effect.save [c2r1 env]]⟩ 2 =
      (⟨[c2r1 env, c2r2 env c], 6,
        [Effect.spawn "claude /docjays-phase1" 1,
         Effect.createLog (log_path 1 (env.clock 0)) 1,
         Effect.save [c2r1 env],
         Effect.spawn "claude /docjays-phase2" 2,
         Effect.createLog (log_path 2 (env.clock 3)) 2,
         Effect.save [c2r1 env, c2r2 env c]]⟩, true) := by
    unfold run_step
    rw [hx2]
    rfl
  have hplan : resolve_plan PHASES (.range 1 3) = [1, 2, 3] := by decide
  have hrun : run_phases PHASES false env (.range 1 3) [] =
      ⟨[c2r1 env, c2r2 env c], 6,
        [Effect.spawn "claude /docjays-phase1" 1,
         Effect.createLog (log_path 1 (env.clock 0)) 1,
         Effect.save [c2r1 env],
         Effect.spawn "claude /docjays-phase2" 2,
         Effect.createLog (log_path 2 (env.clock 3)) 2,
         Effect.save [c2r1 env, c2r2 env c]]⟩ := by
    unfold run_phases
    rw [hplan, run_phases_go_cons, hstep1, if_neg (by simp)]
    show run_phases_go PHASES false env [2, 3]
        ⟨[c2r1 env], 3, [Effect.spawn "claude /docjays-phase1" 1,
           Effect.createLog (log_path 1 (env.clock 0)) 1,
           Effect.save [c2r1 env]]⟩ = _
    rw [run_phases_go_cons, hstep2, if_pos (by simp)]
  rw [hrun]
  exact ⟨rfl, rfl, rfl, rfl⟩

/-- C2 witness at the concrete environment `envC2`. -/
theorem claim_C2_stop_on_failure_witness :
    envC2.outcome 1 = .exited 0 ∧ envC2.outcome 2 = .exited 5 ∧ ¬ (5 : Int) = 0 ∧
    (((run_phases PHASES false envC2 (.range 1 3) []).results.map
        (fun r => (r.phase_number, r.status))) =
      [(1, PhaseStatus.completed), (2, PhaseStatus.failed)] ∧
     (run_phases PHASES false envC2 (.range 1 3) []).results.length = 2 ∧
     spawnPhases (run_phases PHASES false envC2 (.range 1 3) []).effects = [1, 2] ∧
     (savedStores (run_phases PHASES false envC2 (.range 1 3) []).effects).getLast? =
       some (run_phases PHASES false envC2 (.range 1 3) []).results) :=
  ⟨by decide, by decide, by decide,
   claim_C2_stop_on_failure envC2 5 (by decide) (by decide) (by decide)⟩
